import Mathlib

/-!
Shallow embedding of the `uniqid` Go library (src/uniqid.go) and proofs of
the specification claims.  Machine integers are modelled as `Nat`/`Int` with
explicit `% 2^w` where the Go code can overflow; the wall clock is modelled
as a stream `Nat → Int` of successive `nowFunc` readings, indexed by how many
readings have been taken so far; the spin loop takes explicit fuel and the
whole generation step returns `Option` (`none` = the spin never saw the clock
advance within its fuel).
-/

namespace Uniqid

/-- Source: `const alphabet` in uniqid.go line 15. -/
def alphabet : String := "ABCDEFGHIJKLMNOPQRSTUVWXYZabcdefghijklmnopqrstuvwxyz0123456789-_"

/-- Character of the alphabet at byte/char position `d` (the alphabet is pure
ASCII, so Go byte indexing agrees with char indexing). -/
def chrOf (d : Nat) : Char := alphabet.data.getD d 'A'

/-- Alphabet index of a character (its position in `alphabet`). -/
def alphaIdx (c : Char) : Nat := alphabet.data.indexOf c

/-- Digits of the rendering loop of `Next` (uniqid.go lines 165-169): the
loop writes `alphabet[val&63]` into positions 10,9,…,0 while shifting `val`
right by 6 each time, so position `i` of the result list is digit
`(val >>> (6*(10-i))) &&& 63`; `digitsAux k v` is the list of the low `k`
digits of `v`, most significant first. -/
def digitsAux : Nat → Nat → List Nat
  | 0, _ => []
  | k + 1, v => digitsAux k (v >>> 6) ++ [v &&& 63]

/-- Rendering of a packed value as the 11-character string, translated from
the loop in `Next` (uniqid.go lines 165-170). -/
def encodeVal (val : Nat) : String := ⟨(digitsAux 11 val).map chrOf⟩

/-- Lexicographic string comparison where characters are compared by their
alphabet index (the comparison order named by the spec §3/§8), not by raw
character codes. -/
def strLtAlpha (s t : String) : Prop :=
  List.Lex (· < ·) (s.data.map alphaIdx) (t.data.map alphaIdx)

instance (s t : String) : Decidable (strLtAlpha s t) := by
  unfold strLtAlpha; infer_instance

/-- Packing of uniqid.go line 163:
`val := (uint64(nowMs) << 25) | (uint64(g.shard) << 15) | uint64(g.seq)`.
`nowMs` is a Go `int64`, so the `uint64` conversion is reduction mod `2^64`
of the two's-complement value, i.e. `(nowMs % 2^64).toNat` on `Int`;
`shard` and `seq` are Go `uint16`, modelled as their values mod `2^16`. -/
def pack (nowMs : Int) (shard seq : Nat) : Nat :=
  (((nowMs % (2 ^ 64 : Int)).toNat <<< 25) % 2 ^ 64) |||
    ((shard % 65536) <<< 15) ||| (seq % 65536)

/-- Millisecond-tick field of a packed identifier (top 39 bits). -/
def tickField (v : Nat) : Nat := v >>> 25

/-- Shard field of a packed identifier (bits 15..24). -/
def shardField (v : Nat) : Nat := (v >>> 15) &&& 1023

/-- Sequence field of a packed identifier (low 15 bits). -/
def seqField (v : Nat) : Nat := v &&& 32767

/-- Mutable state of a `Generator` (uniqid.go lines 30-37) together with its
immutable configuration (`shard`, `baseEpoch`).  The mutex only serializes
access and has no sequential meaning. -/
structure GenState where
  lastMs : Int
  seq : Nat
  shard : Nat
  baseEpoch : Int
deriving DecidableEq

/-- Generator as produced by `New` (uniqid.go lines 75-83): Go zero values
`lastMs = 0`, `seq = 0`. -/
def freshGen (shard : Nat) (epoch : Int) : GenState :=
  ⟨0, 0, shard, epoch⟩

/-- Spin loop of `spinUntilNextMs` (uniqid.go lines 216-226), with `target =
lastMs + 1` already substituted by the caller.  Reading index `i` is consumed
each iteration; the loop returns once `clock i - baseEpoch ≥ target`, giving
back the next unconsumed reading index.  `fuel` bounds the number of
iterations (the Go loop is unbounded; `none` models non-termination within
the given fuel). -/
def spinGo (baseEpoch target : Int) (clock : Nat → Int) : Nat → Nat → Option Nat
  | _, 0 => none
  | i, fuel + 1 =>
    if target ≤ clock i - baseEpoch then some (i + 1)
    else spinGo baseEpoch target clock (i + 1) fuel

/-- One call of `Generator.Next` (uniqid.go lines 146-171), up to (but not
including) the string rendering: returns the updated state, the packed
value, and the next unconsumed clock-reading index.
`max (clock i - baseEpoch) lastMs` is line 148; the outer `if` is line 149;
the rollover branch re-reads the clock (line 155) after the spin returns —
note that, as in the source, this re-read is NOT guarded by `max`. -/
def next (g : GenState) (clock : Nat → Int) (i fuel : Nat) :
    Option (GenState × Nat × Nat) :=
  if max (clock i - g.baseEpoch) g.lastMs = g.lastMs then
    if 32768 ≤ (g.seq + 1) % 65536 then
      match spinGo g.baseEpoch (g.lastMs + 1) clock (i + 1) fuel with
      | none => none
      | some j =>
        some ({ g with lastMs := clock j - g.baseEpoch, seq := 0 },
          pack (clock j - g.baseEpoch) g.shard 0, j + 1)
    else
      some ({ g with seq := (g.seq + 1) % 65536 },
        pack (max (clock i - g.baseEpoch) g.lastMs) g.shard ((g.seq + 1) % 65536),
        i + 1)
  else
    some ({ g with lastMs := max (clock i - g.baseEpoch) g.lastMs, seq := 0 },
      pack (max (clock i - g.baseEpoch) g.lastMs) g.shard 0, i + 1)

/-- Model of `Generator.Next` including the final string rendering (uniqid.go lines
165-170). -/
def nextStr (g : GenState) (clock : Nat → Int) (i fuel : Nat) :
    Option (GenState × String × Nat) :=
  (next g clock i fuel).map fun p => (p.1, encodeVal p.2.1, p.2.2)

/-- State and clock index after `n` successive sequential `Next` calls. -/
def nextRun (g : GenState) (clock : Nat → Int) (i fuel : Nat) :
    Nat → Option (GenState × Nat)
  | 0 => some (g, i)
  | n + 1 =>
    (nextRun g clock i fuel n).bind fun p =>
      (next p.1 clock p.2 fuel).map fun q => (q.1, q.2.2)

/-- FNV-1a 32-bit hash over a byte list, as computed by Go's
`fnv.New32a()`/`Write`/`Sum32` (used in uniqid.go lines 196-198, 202-204):
start from offset basis 2166136261; per byte, XOR then multiply by prime
16777619 with `uint32` wraparound. -/
def fnv1a32 (bytes : List Nat) : Nat :=
  bytes.foldl (fun h b => ((h ^^^ b % 256) * 16777619) % 2 ^ 32) 2166136261

/-- Network interface as consumed by `autoShardWithDeps`: its loopback flag
and hardware (MAC) address bytes (`net.Interface`). -/
structure Iface where
  loopback : Bool
  hw : List Nat
deriving DecidableEq

/-- Model of `autoShardWithDeps` (uniqid.go lines 190-211).  The interface enumerator
is modelled by its returned list (the Go code ignores its error and an
enumeration failure is an empty list); the host-name provider by
`Option` of the name's bytes (`none` = error); the randomness provider by
`Option` of the two bytes it would write (`none` = error).  The skip
condition of the loop (line 193) is: loopback flag set, or no hardware
address. -/
def autoShardWithDeps (ifaces : List Iface) (host : Option (List Nat))
    (rnd : Option (Nat × Nat)) : Except String Nat :=
  match ifaces.find? (fun f => !f.loopback && !f.hw.isEmpty) with
  | some f => .ok (fnv1a32 f.hw &&& 0x3FF)
  | none =>
    match host with
    | some hn => .ok (fnv1a32 hn &&& 0x3FF)
    | none =>
      match rnd with
      | some (b0, b1) => .ok ((((b0 % 256) <<< 8) ||| b1 % 256) &&& 0x3FF)
      | none => .error "could not determine shard ID"

/-- Source: `const defaultEpochMs` in uniqid.go line 16 (2020-01-01 UTC). -/
def defaultEpochMs : Int := 1577836800000

/-- Model of `Config` (uniqid.go lines 23-26). -/
structure Config where
  shardID : Int
  customEpochMs : Int

/-- Immutable part of a constructed generator: its shard and epoch. -/
structure GenCore where
  shard : Nat
  baseEpoch : Int
deriving DecidableEq

/-- Model of `New` (uniqid.go lines 66-99).  The outcome of the auto-shard resolution
is passed in as `auto` (in the source it is `autoShardFunc(g.deps)`); it is
consulted only when `shardID < 0`.  A `nil` config is `none`; Go's
`uint16(cfg.ShardID)` conversion is reduction mod `2^16`. -/
def NewModel (cfg : Option Config) (auto : Except String Nat) :
    Except String GenCore :=
  let c := cfg.getD ⟨-1, defaultEpochMs⟩
  let epoch := if c.customEpochMs = 0 then defaultEpochMs else c.customEpochMs
  if 0 ≤ c.shardID then
    if 1023 < c.shardID then .error "shardID must be 0..1023"
    else .ok ⟨(c.shardID % 65536).toNat, epoch⟩
  else
    match auto with
    | .ok s => .ok ⟨s, epoch⟩
    | .error e => .error e

/-- One call of the no-config path of `Gen` (uniqid.go lines 122-131):
`sync.Once` caching of the `newFunc(nil)` outcome.  `st` is the singleton
cell (`none` = not yet initialized), `construct` is what `newFunc(nil)`
would return on this call; the pair is (new cell contents, outcome the call
acts on). -/
def genOnce (st : Option (Except String GenCore))
    (construct : Except String GenCore) :
    Option (Except String GenCore) × Except String GenCore :=
  match st with
  | some r => (some r, r)
  | none => (some construct, construct)

/-- Outcomes observed by a sequence of no-config `Gen` calls, where `cs`
lists what `newFunc(nil)` would return at each call if it were invoked. -/
def genOnceRun (st : Option (Except String GenCore)) :
    List (Except String GenCore) → List (Except String GenCore)
  | [] => []
  | c :: cs => (genOnce st c).2 :: genOnceRun (genOnce st c).1 cs

/-- Digits of `v` in base 64, most significant first, as a head-recursive
function (specification-style counterpart of `digitsAux`, used only to
structure the ordering proof). -/
def encAux : Nat → Nat → List Nat
  | 0, _ => []
  | k + 1, v => v / 64 ^ k :: encAux k (v % 64 ^ k)

/-- Clock stream for the sequence-rollover scenario: one reading at the old
tick 10, then the clock advances to 12 and stays there. -/
def wClock : Nat → Int := fun k => if k = 0 then 10 else 12

/-- Adversarial clock stream (epoch 0): readings 0..32768 are all tick 10,
reading 32769 (seen by the rollover spin) is 11, reading 32770 (the
unguarded re-read after the spin) jumps back to 5, and later readings are 10
again. -/
def badClock : Nat → Int := fun j =>
  if j ≤ 32768 then 10 else if j = 32769 then 11 else if j = 32770 then 5 else 10

/-! ### Encoding lemmas -/

theorem digitsAux_length (k : Nat) : ∀ v, (digitsAux k v).length = k := by
  induction k with
  | zero => intro v; rfl
  | succ k ih =>
    intro v
    simp [digitsAux, ih]

theorem digitsAux_lt (k : Nat) : ∀ v, ∀ d ∈ digitsAux k v, d < 64 := by
  induction k with
  | zero => intro v d hd; simp [digitsAux] at hd
  | succ k ih =>
    intro v d hd
    simp only [digitsAux, List.mem_append, List.mem_singleton] at hd
    rcases hd with hd | hd
    · exact ih _ d hd
    · subst hd
      have : v &&& 63 = v % 64 := by
        have h := Nat.and_pow_two_sub_one_eq_mod v 6
        norm_num at h
        exact h
      rw [this]
      exact Nat.mod_lt _ (by norm_num)

theorem encAux_concat (k : Nat) : ∀ v, v < 64 ^ (k + 1) →
    encAux k (v / 64) ++ [v % 64] = v / 64 ^ k :: encAux k (v % 64 ^ k) := by
  induction k with
  | zero =>
    intro v hv
    simp [encAux, Nat.mod_eq_of_lt (by simpa using hv)]
  | succ k ih =>
    intro v hv
    have hdd : v / 64 / 64 ^ k = v / 64 ^ (k + 1) := by
      rw [Nat.div_div_eq_div_mul, ← Nat.pow_succ']
    have hmd : v / 64 % 64 ^ k = v % 64 ^ (k + 1) / 64 := by
      rw [Nat.pow_succ', Nat.mod_mul_right_div_self]
    have hmm : v % 64 = v % 64 ^ (k + 1) % 64 := by
      rw [Nat.mod_mod_of_dvd v (dvd_pow_self 64 (Nat.succ_ne_zero k))]
    have hw : v % 64 ^ (k + 1) < 64 ^ (k + 1) :=
      Nat.mod_lt _ (Nat.pos_pow_of_pos _ (by norm_num))
    calc encAux (k + 1) (v / 64) ++ [v % 64]
        = v / 64 / 64 ^ k :: (encAux k (v / 64 % 64 ^ k) ++ [v % 64]) := by
          simp [encAux]
      _ = v / 64 ^ (k + 1) ::
            (encAux k (v % 64 ^ (k + 1) / 64) ++ [v % 64 ^ (k + 1) % 64]) := by
          rw [hdd, hmd, hmm]
      _ = v / 64 ^ (k + 1) :: encAux (k + 1) (v % 64 ^ (k + 1)) := by
          rw [ih _ hw]; rfl

theorem digitsAux_eq_encAux (k : Nat) : ∀ v, v < 64 ^ k →
    digitsAux k v = encAux k v := by
  induction k with
  | zero => intro v _; rfl
  | succ k ih =>
    intro v hv
    have hsh : v >>> 6 = v / 64 := by
      have := Nat.shiftRight_eq_div_pow v 6
      norm_num at this
      exact this
    have han : v &&& 63 = v % 64 := by
      have h := Nat.and_pow_two_sub_one_eq_mod v 6
      norm_num at h
      exact h
    have hd : v / 64 < 64 ^ k := by
      rw [Nat.div_lt_iff_lt_mul (by norm_num : (0:Nat) < 64)]
      calc v < 64 ^ (k + 1) := hv
        _ = 64 ^ k * 64 := by rw [Nat.pow_succ]
    calc digitsAux (k + 1) v = digitsAux k (v / 64) ++ [v % 64] := by
          rw [digitsAux, hsh, han]
      _ = encAux k (v / 64) ++ [v % 64] := by rw [ih _ hd]
      _ = encAux (k + 1) v := encAux_concat k v hv

theorem lex_irrefl : ∀ l : List Nat, ¬ List.Lex (· < ·) l l := by
  intro l
  induction l with
  | nil => exact List.Lex.not_nil_right _ _
  | cons a l ih =>
    intro h
    rw [List.Lex.cons_iff] at h
    exact ih h

theorem lex_asymm {l₁ l₂ : List Nat} (h : List.Lex (· < ·) l₁ l₂) :
    ¬ List.Lex (· < ·) l₂ l₁ := by
  induction h with
  | nil => exact List.Lex.not_nil_right _ _
  | @cons a l₁ l₂ h ih =>
    intro h₂
    cases h₂ with
    | cons h₃ => exact ih h₃
    | rel h₃ => exact lt_irrefl a h₃
  | @rel a₁ l₁ a₂ l₂ h =>
    intro h₂
    cases h₂ with
    | cons h₃ => exact lt_irrefl a₁ h
    | rel h₃ => exact lt_asymm h h₃

theorem encAux_lt_of_lt (k : Nat) : ∀ u v, u < 64 ^ k → v < 64 ^ k → u < v →
    List.Lex (· < ·) (encAux k u) (encAux k v) := by
  induction k with
  | zero => intro u v hu _ huv; omega
  | succ k ih =>
    intro u v hu hv huv
    rcases Nat.lt_trichotomy (u / 64 ^ k) (v / 64 ^ k) with h | h | h
    · exact List.Lex.rel h
    · show List.Lex (· < ·) (u / 64 ^ k :: encAux k (u % 64 ^ k))
        (v / 64 ^ k :: encAux k (v % 64 ^ k))
      rw [h]
      refine List.Lex.cons (ih _ _ (Nat.mod_lt _ (by positivity))
        (Nat.mod_lt _ (by positivity)) ?_)
      have h1 := Nat.div_add_mod u (64 ^ k)
      have h2 := Nat.div_add_mod v (64 ^ k)
      rw [h] at h1
      have : 64 ^ k * (v / 64 ^ k) + u % 64 ^ k
          < 64 ^ k * (v / 64 ^ k) + v % 64 ^ k := by
        rw [h1, h2]; exact huv
      exact Nat.lt_of_add_lt_add_left this
    · exact absurd h (Nat.not_lt.mpr (Nat.div_le_div_right (Nat.le_of_lt huv)))

theorem encAux_lt_iff (k : Nat) (u v : Nat) (hu : u < 64 ^ k) (hv : v < 64 ^ k) :
    u < v ↔ List.Lex (· < ·) (encAux k u) (encAux k v) := by
  constructor
  · exact encAux_lt_of_lt k u v hu hv
  · intro hlex
    rcases Nat.lt_trichotomy u v with h | h | h
    · exact h
    · subst h; exact absurd hlex (lex_irrefl _)
    · exact absurd hlex (lex_asymm (encAux_lt_of_lt k v u hv hu h))

theorem two_pow_64_lt : (2 : Nat) ^ 64 < 64 ^ 11 := by norm_num

theorem digits_lt_iff (u v : Nat) (hu : u < 2 ^ 64) (hv : v < 2 ^ 64) :
    u < v ↔ List.Lex (· < ·) (digitsAux 11 u) (digitsAux 11 v) := by
  have hu' : u < 64 ^ 11 := lt_trans hu two_pow_64_lt
  have hv' : v < 64 ^ 11 := lt_trans hv two_pow_64_lt
  rw [digitsAux_eq_encAux 11 u hu', digitsAux_eq_encAux 11 v hv']
  exact encAux_lt_iff 11 u v hu' hv'

theorem alphaIdx_chrOf : ∀ d, d < 64 → alphaIdx (chrOf d) = d := by decide

theorem map_alphaIdx_chrOf (l : List Nat) (h : ∀ d ∈ l, d < 64) :
    (l.map chrOf).map alphaIdx = l := by
  rw [List.map_map]
  have : l.map (alphaIdx ∘ chrOf) = l.map id :=
    List.map_congr_left fun d hd => alphaIdx_chrOf d (h d hd)
  rw [this, List.map_id]

theorem strLt_iff (u v : Nat) (hu : u < 2 ^ 64) (hv : v < 2 ^ 64) :
    strLtAlpha (encodeVal u) (encodeVal v) ↔ u < v := by
  show List.Lex (· < ·) (((digitsAux 11 u).map chrOf).map alphaIdx)
    (((digitsAux 11 v).map chrOf).map alphaIdx) ↔ u < v
  rw [map_alphaIdx_chrOf _ (digitsAux_lt 11 u), map_alphaIdx_chrOf _ (digitsAux_lt 11 v)]
  exact (digits_lt_iff u v hu hv).symm

theorem encodeVal_inj_iff (u v : Nat) (hu : u < 2 ^ 64) (hv : v < 2 ^ 64) :
    encodeVal u = encodeVal v ↔ u = v := by
  constructor
  · intro h
    have hdat : (digitsAux 11 u).map chrOf = (digitsAux 11 v).map chrOf :=
      congrArg String.data h
    have hdig : digitsAux 11 u = digitsAux 11 v := by
      rw [← map_alphaIdx_chrOf _ (digitsAux_lt 11 u),
        ← map_alphaIdx_chrOf _ (digitsAux_lt 11 v), hdat]
    rcases Nat.lt_trichotomy u v with hc | hc | hc
    · have := (digits_lt_iff u v hu hv).mp hc
      rw [hdig] at this
      exact absurd this (lex_irrefl _)
    · exact hc
    · have := (digits_lt_iff v u hv hu).mp hc
      rw [hdig] at this
      exact absurd this (lex_irrefl _)
  · intro h; rw [h]

/-! ### Packing arithmetic -/

theorem pack_natCast (t sh s : Nat) (ht : t < 2 ^ 39) (hsh : sh < 1024)
    (hs : s < 32768) :
    pack (t : Int) sh s = t * 2 ^ 25 + sh * 2 ^ 15 + s := by
  have hmod : ((t : Int) % (2 ^ 64 : Int)) = (t : Int) := by
    refine Int.emod_eq_of_lt (Int.natCast_nonneg t) ?_
    have h64 : t < 2 ^ 64 := by omega
    exact_mod_cast h64
  have hsh' : sh % 65536 = sh := Nat.mod_eq_of_lt (by omega)
  have hs' : s % 65536 = s := Nat.mod_eq_of_lt (by omega)
  have hmul : t * 2 ^ 25 % 2 ^ 64 = t * 2 ^ 25 := by
    refine Nat.mod_eq_of_lt ?_
    norm_num at ht ⊢
    omega
  have hor1 : sh * 2 ^ 15 < 2 ^ 25 := by
    norm_num
    omega
  unfold pack
  rw [hmod, Int.toNat_natCast, Nat.shiftLeft_eq, Nat.shiftLeft_eq, hmul, hsh', hs']
  calc t * 2 ^ 25 ||| sh * 2 ^ 15 ||| s
      = (2 ^ 25 * t ||| sh * 2 ^ 15) ||| s := by rw [Nat.mul_comm]
    _ = (2 ^ 25 * t + sh * 2 ^ 15) ||| s := by rw [← Nat.mul_add_lt_is_or hor1 t]
    _ = (2 ^ 15 * (2 ^ 10 * t + sh)) ||| s := by congr 1; ring
    _ = 2 ^ 15 * (2 ^ 10 * t + sh) + s := by
        rw [← Nat.mul_add_lt_is_or (by omega : s < 2 ^ 15) (2 ^ 10 * t + sh)]
    _ = t * 2 ^ 25 + sh * 2 ^ 15 + s := by ring

theorem pack_lt (t sh s : Nat) (ht : t < 2 ^ 39) (hsh : sh < 1024)
    (hs : s < 32768) : pack (t : Int) sh s < 2 ^ 64 := by
  rw [pack_natCast t sh s ht hsh hs]
  have h1 : t * 2 ^ 25 ≤ (2 ^ 39 - 1) * 2 ^ 25 :=
    Nat.mul_le_mul_right _ (by omega)
  norm_num at h1 ⊢
  omega

theorem fields_of_pack (t sh s : Nat) (ht : t < 2 ^ 39) (hsh : sh < 1024)
    (hs : s < 32768) :
    tickField (pack (t : Int) sh s) = t ∧ shardField (pack (t : Int) sh s) = sh ∧
      seqField (pack (t : Int) sh s) = s := by
  rw [tickField, shardField, seqField, pack_natCast t sh s ht hsh hs]
  have e1 : ∀ x : Nat, x >>> 25 = x / 2 ^ 25 := fun x => Nat.shiftRight_eq_div_pow x 25
  have e2 : ∀ x : Nat, x >>> 15 = x / 2 ^ 15 := fun x => Nat.shiftRight_eq_div_pow x 15
  have e3 : ∀ x : Nat, x &&& 1023 = x % 2 ^ 10 := fun x => by
    have h := Nat.and_pow_two_sub_one_eq_mod x 10
    norm_num at h ⊢
    exact h
  have e4 : ∀ x : Nat, x &&& 32767 = x % 2 ^ 15 := fun x => by
    have h := Nat.and_pow_two_sub_one_eq_mod x 15
    norm_num at h ⊢
    exact h
  rw [e1, e2, e3, e4]
  norm_num
  omega

/-! ### Single-step and multi-step generation lemmas -/

theorem next_same (g : GenState) (clock : Nat → Int) (i fuel : Nat)
    (h1 : clock i - g.baseEpoch ≤ g.lastMs)
    (h2 : (g.seq + 1) % 65536 < 32768) :
    next g clock i fuel = some ({ g with seq := (g.seq + 1) % 65536 },
      pack g.lastMs g.shard ((g.seq + 1) % 65536), i + 1) := by
  have hmax : max (clock i - g.baseEpoch) g.lastMs = g.lastMs := max_eq_right h1
  unfold next
  rw [hmax, if_pos rfl, if_neg (Nat.not_le.mpr h2)]

theorem next_advance (g : GenState) (clock : Nat → Int) (i fuel : Nat)
    (h1 : g.lastMs < clock i - g.baseEpoch) :
    next g clock i fuel =
      some ({ g with lastMs := clock i - g.baseEpoch, seq := 0 },
        pack (clock i - g.baseEpoch) g.shard 0, i + 1) := by
  have hmax : max (clock i - g.baseEpoch) g.lastMs = clock i - g.baseEpoch :=
    max_eq_left (le_of_lt h1)
  unfold next
  rw [hmax, if_neg (ne_of_gt h1)]

theorem next_roll (g : GenState) (clock : Nat → Int) (i fuel j : Nat)
    (h1 : clock i - g.baseEpoch ≤ g.lastMs)
    (h2 : 32768 ≤ (g.seq + 1) % 65536)
    (h3 : spinGo g.baseEpoch (g.lastMs + 1) clock (i + 1) fuel = some j) :
    next g clock i fuel =
      some ({ g with lastMs := clock j - g.baseEpoch, seq := 0 },
        pack (clock j - g.baseEpoch) g.shard 0, j + 1) := by
  have hmax : max (clock i - g.baseEpoch) g.lastMs = g.lastMs := max_eq_right h1
  unfold next
  rw [hmax, if_pos rfl, if_pos h2, h3]

theorem spinGo_first (baseEpoch target : Int) (clock : Nat → Int) :
    ∀ (n i fuel : Nat), n < fuel →
      (∀ m, m < n → clock (i + m) - baseEpoch < target) →
      target ≤ clock (i + n) - baseEpoch →
      spinGo baseEpoch target clock i fuel = some (i + n + 1) := by
  intro n
  induction n with
  | zero =>
    intro i fuel hf _ hhit
    match fuel, hf with
    | f + 1, _ =>
      rw [Nat.add_zero] at hhit
      unfold spinGo
      rw [if_pos hhit]
  | succ n ih =>
    intro i fuel hf hmiss hhit
    match fuel, hf with
    | f + 1, hf =>
      have h0 : clock i - baseEpoch < target := by
        have := hmiss 0 (Nat.succ_pos n)
        rwa [Nat.add_zero] at this
      unfold spinGo
      rw [if_neg (not_le.mpr h0)]
      have hmiss' : ∀ m, m < n → clock (i + 1 + m) - baseEpoch < target := by
        intro m hm
        have h := hmiss (m + 1) (by omega)
        have he : i + (m + 1) = i + 1 + m := by omega
        rwa [he] at h
      have hhit' : target ≤ clock (i + 1 + n) - baseEpoch := by
        have he : i + (n + 1) = i + 1 + n := by omega
        rwa [he] at hhit
      have := ih (i + 1) f (by omega) hmiss' hhit'
      rw [this]
      congr 1
      omega

theorem nextRun_add (g : GenState) (clock : Nat → Int) (i fuel a : Nat) :
    ∀ b, nextRun g clock i fuel (a + b) =
      (nextRun g clock i fuel a).bind fun p => nextRun p.1 clock p.2 fuel b := by
  intro b
  induction b with
  | zero =>
    show nextRun g clock i fuel a = _
    cases nextRun g clock i fuel a with
    | none => rfl
    | some p => rfl
  | succ b ih =>
    show (nextRun g clock i fuel (a + b)).bind _ = _
    rw [ih]
    cases nextRun g clock i fuel a with
    | none => rfl
    | some p =>
      show (nextRun p.1 clock p.2 fuel b).bind _ = _
      rfl

theorem nextRun_frozen (T E : Int) (sh : Nat) (clock : Nat → Int) (fuel : Nat) :
    ∀ (n i s : Nat), s + n ≤ 32767 →
      (∀ k, k < n → clock (i + k) - E ≤ T) →
      nextRun ⟨T, s, sh, E⟩ clock i fuel n = some (⟨T, s + n, sh, E⟩, i + n) := by
  intro n
  induction n with
  | zero => intro i s _ _; rfl
  | succ n ih =>
    intro i s hs hc
    show (nextRun ⟨T, s, sh, E⟩ clock i fuel n).bind _ = _
    rw [ih i s (by omega) (fun k hk => hc k (by omega))]
    have hsame : clock (i + n) - E ≤ T := hc n (Nat.lt_succ_self n)
    have hseq : (s + n + 1) % 65536 = s + n + 1 := Nat.mod_eq_of_lt (by omega)
    have hlt : (s + n + 1) % 65536 < 32768 := by omega
    show (next ⟨T, s + n, sh, E⟩ clock (i + n) fuel).map _ = _
    rw [next_same ⟨T, s + n, sh, E⟩ clock (i + n) fuel hsame hlt]
    show some _ = _
    rw [hseq]
    have e1 : s + n + 1 = s + (n + 1) := by omega
    have e2 : i + n + 1 = i + (n + 1) := by omega
    rw [e1, e2]

/-! ### Helper lemmas about the auto-shard resolver and the singleton -/

theorem autoShard_error_msg (ifaces : List Iface) (host : Option (List Nat))
    (rnd : Option (Nat × Nat)) (m : String)
    (h : autoShardWithDeps ifaces host rnd = .error m) :
    m = "could not determine shard ID" := by
  unfold autoShardWithDeps at h
  split at h
  · exact absurd h (by simp)
  · split at h
    · exact absurd h (by simp)
    · split at h
      · exact absurd h (by simp)
      · injection h with h
        exact h.symm

theorem genOnceRun_cached (r : Except String GenCore) :
    ∀ cs, genOnceRun (some r) cs = cs.map fun _ => r := by
  intro cs
  induction cs with
  | nil => rfl
  | cons c cs ih =>
    show (genOnce (some r) c).2 :: genOnceRun (genOnce (some r) c).1 cs = _
    rw [show genOnce (some r) c = (some r, r) from rfl]
    simp [ih]

/-! ### Claim theorems (first batch) -/

/-- C4: auto-shard resolution follows the fixed fallback chain: when the
interface source yields nothing qualifying and only the host name succeeds,
the shard is `FNV1a-32(hostname bytes) &&& 0x3FF`; when only the randomness
source succeeds, it is the big-endian `uint16` of the 2 random bytes
`&&& 0x3FF`; when all three sources fail, resolution returns an error. -/
theorem c4_auto_shard_fallback (ifaces : List Iface) (host : List Nat)
    (b0 b1 : Nat)
    (hnone : ifaces.find? (fun f => !f.loopback && !f.hw.isEmpty) = none) :
    autoShardWithDeps ifaces (some host) none = .ok (fnv1a32 host &&& 0x3FF) ∧
    autoShardWithDeps ifaces none (some (b0, b1)) =
      .ok ((((b0 % 256) <<< 8) ||| b1 % 256) &&& 0x3FF) ∧
    autoShardWithDeps ifaces none none = .error "could not determine shard ID" := by
  refine ⟨?_, ?_, ?_⟩ <;> (unfold autoShardWithDeps; rw [hnone])

theorem c4_auto_shard_fallback_witness :
    autoShardWithDeps [⟨true, [1, 2]⟩, ⟨false, []⟩] (some [104, 105]) none =
      .ok (fnv1a32 [104, 105] &&& 0x3FF) ∧
    autoShardWithDeps [⟨true, [1, 2]⟩, ⟨false, []⟩] none (some (7, 9)) =
      .ok ((((7 % 256) <<< 8) ||| 9 % 256) &&& 0x3FF) ∧
    autoShardWithDeps [⟨true, [1, 2]⟩, ⟨false, []⟩] none none =
      .error "could not determine shard ID" :=
  c4_auto_shard_fallback [⟨true, [1, 2]⟩, ⟨false, []⟩] [104, 105] 7 9 (by decide)

/-- C6: constructing with explicit shard 1024 fails with the invalid-shard
error and no generator; constructing with explicit shard 1023 succeeds and
the resulting generator's shard field is 1023 (regardless of what the
auto-shard resolver would have returned). -/
theorem c6_invalid_shard_rejection (auto : Except String Nat) :
    NewModel (some ⟨1024, 0⟩) auto = .error "shardID must be 0..1023" ∧
    NewModel (some ⟨1023, 0⟩) auto = .ok ⟨1023, defaultEpochMs⟩ :=
  ⟨rfl, rfl⟩

/-- C8: the cached singleton of no-config `Gen`: once the cell is
initialized its contents are returned unchanged and the would-be constructor
outcome of the call is ignored (initialization happens at most once), and if
the single initialization failed with error `e`, every subsequent
no-config call returns that same cached error, never retrying construction
(the list `cs` of outcomes later construction attempts would produce is
never consulted). -/
theorem c8_singleton_cached_failure (e : String) (c0 c r : Except String GenCore)
    (cs : List (Except String GenCore)) (h : c0 = .error e) :
    genOnce (some r) c = (some r, r) ∧
    genOnceRun (some (.error e)) cs = cs.map (fun _ => .error e) ∧
    genOnceRun none (c0 :: cs) = .error e :: cs.map (fun _ => .error e) := by
  subst h
  refine ⟨rfl, genOnceRun_cached _ cs, ?_⟩
  show (genOnce none (.error e)).2 :: genOnceRun (genOnce none (.error e)).1 cs = _
  rw [show genOnce none (.error e) = (some (.error e), .error e) from rfl]
  simp [genOnceRun_cached]

theorem c8_singleton_cached_failure_witness :
    genOnce (some (Except.ok (GenCore.mk 3 0))) (Except.ok (GenCore.mk 2 0)) =
      (some (Except.ok (GenCore.mk 3 0)), Except.ok (GenCore.mk 3 0)) ∧
    genOnceRun (some (Except.error "init failed")) [Except.ok (GenCore.mk 1 0)] =
      ([Except.ok (GenCore.mk 1 0)] : List (Except String GenCore)).map
        (fun _ => Except.error "init failed") ∧
    genOnceRun none (Except.error "init failed" :: [Except.ok (GenCore.mk 1 0)]) =
      Except.error "init failed" ::
        ([Except.ok (GenCore.mk 1 0)] : List (Except String GenCore)).map
          (fun _ => Except.error "init failed") :=
  c8_singleton_cached_failure "init failed" (Except.error "init failed")
    (Except.ok (GenCore.mk 2 0)) (Except.ok (GenCore.mk 3 0))
    [Except.ok (GenCore.mk 1 0)] rfl

/-- C9: every negative configured ShardID (not only the documented sentinel
-1) takes the auto-derivation path — the result is exactly the auto-shard
outcome mapped into a generator — and the invalid-shard error is returned
exactly for ShardID values strictly greater than 1023. -/
theorem c9_negative_shard_auto (s sp e : Int) (ifaces : List Iface)
    (host : Option (List Nat)) (rnd : Option (Nat × Nat)) (hs : s < 0) :
    NewModel (some ⟨s, e⟩) (autoShardWithDeps ifaces host rnd) =
      (autoShardWithDeps ifaces host rnd).map
        (fun sh => GenCore.mk sh (if e = 0 then defaultEpochMs else e)) ∧
    (NewModel (some ⟨sp, e⟩) (autoShardWithDeps ifaces host rnd) =
        .error "shardID must be 0..1023" ↔ 1023 < sp) := by
  constructor
  · show NewModel (some ⟨s, e⟩) _ = _
    unfold NewModel
    simp only [Option.getD]
    rw [if_neg (not_le.mpr hs)]
    cases autoShardWithDeps ifaces host rnd with
    | ok v => rfl
    | error m => rfl
  · constructor
    · intro heq
      by_contra hnot
      rcases le_or_lt 0 sp with h0 | h0
      · unfold NewModel at heq
        simp only [Option.getD] at heq
        rw [if_pos h0, if_neg (by omega)] at heq
        exact Except.noConfusion heq
      · unfold NewModel at heq
        simp only [Option.getD] at heq
        rw [if_neg (not_le.mpr h0)] at heq
        cases hres : autoShardWithDeps ifaces host rnd with
        | ok v => rw [hres] at heq; exact Except.noConfusion heq
        | error m =>
          rw [hres] at heq
          have hm : m = "shardID must be 0..1023" := by
            simpa using heq
          have := autoShard_error_msg ifaces host rnd m hres
          rw [this] at hm
          exact absurd hm (by decide)
    · intro h1023
      unfold NewModel
      simp only [Option.getD]
      rw [if_pos (by omega), if_pos h1023]

theorem c9_negative_shard_auto_witness :
    (NewModel (some ⟨-5, 0⟩) (autoShardWithDeps [] none none) =
      (autoShardWithDeps [] none none).map
        (fun sh => GenCore.mk sh (if (0 : Int) = 0 then defaultEpochMs else 0)) ∧
    (NewModel (some ⟨-5, 0⟩) (autoShardWithDeps [] none none) =
        .error "shardID must be 0..1023" ↔ 1023 < (-5 : Int))) :=
  c9_negative_shard_auto (-5) (-5) 0 [] none none (by decide)

/-- C10: on a fresh generator whose first `Next` call observes an
epoch-relative tick at or below 0, the same-millisecond branch is taken
(the last-tick state initializes to 0), so the first identifier carries
tick field 0 and sequence field 1. -/
theorem c10_first_call_nonpositive_tick (sh : Nat) (E : Int) (clock : Nat → Int)
    (i fuel : Nat) (hsh : sh < 1024) (hr : clock i - E ≤ 0) :
    next (freshGen sh E) clock i fuel =
      some (⟨0, 1, sh, E⟩, pack 0 sh 1, i + 1) ∧
    tickField (pack 0 sh 1) = 0 ∧ seqField (pack 0 sh 1) = 1 := by
  have hfields := fields_of_pack 0 sh 1 (by norm_num) hsh (by norm_num)
  have hcast : ((0 : Nat) : Int) = (0 : Int) := by norm_num
  rw [hcast] at hfields
  refine ⟨?_, hfields.1, hfields.2.2⟩
  have hstep := next_same (freshGen sh E) clock i fuel hr
    (by show (0 + 1) % 65536 < 32768; norm_num)
  rw [hstep]
  rfl

theorem c10_first_call_nonpositive_tick_witness :
    (3 : Nat) < 1024 ∧ (fun _ : Nat => (50 : Int)) 0 - 100 ≤ 0 ∧
    (next (freshGen 3 100) (fun _ => (50 : Int)) 0 0 =
      some (⟨0, 1, 3, 100⟩, pack 0 3 1, 0 + 1) ∧
    tickField (pack 0 3 1) = 0 ∧ seqField (pack 0 3 1) = 1) :=
  ⟨by decide, by decide,
    c10_first_call_nonpositive_tick 3 100 (fun _ => (50 : Int)) 0 0 (by decide) (by decide)⟩

/-! ### String-shape lemmas for the rendered identifiers -/

theorem and63_eq_mod (x : Nat) : x &&& 63 = x % 64 := by
  have h := Nat.and_pow_two_sub_one_eq_mod x 6
  norm_num at h
  exact h

theorem shr6_eq_div (x : Nat) : x >>> 6 = x / 64 := by
  have h := Nat.shiftRight_eq_div_pow x 6
  norm_num at h
  exact h

theorem encodeVal_length (v : Nat) : (encodeVal v).length = 11 := by
  show ((digitsAux 11 v).map chrOf).length = 11
  rw [List.length_map, digitsAux_length]

theorem alphabet_data_length : alphabet.data.length = 64 := by decide

theorem encodeVal_mem_alphabet (v : Nat) :
    ∀ c ∈ (encodeVal v).data, c ∈ alphabet.data := by
  intro c hc
  have hc' : c ∈ (digitsAux 11 v).map chrOf := hc
  rw [List.mem_map] at hc'
  obtain ⟨d, hd, hdc⟩ := hc'
  have hd64 : d < 64 := digitsAux_lt 11 v d hd
  have hlen : d < alphabet.data.length := by rw [alphabet_data_length]; exact hd64
  rw [← hdc]
  show alphabet.data.getD d 'A' ∈ alphabet.data
  rw [List.getD_eq_getElem alphabet.data 'A' hlen]
  exact List.getElem_mem hlen

theorem or_form_eq_add (t sh s : Nat) (hsh : sh < 1024) (hs : s < 32768) :
    t <<< 25 ||| sh <<< 15 ||| s = t * 2 ^ 25 + sh * 2 ^ 15 + s := by
  have hor1 : sh * 2 ^ 15 < 2 ^ 25 := by norm_num; omega
  rw [Nat.shiftLeft_eq, Nat.shiftLeft_eq]
  calc t * 2 ^ 25 ||| sh * 2 ^ 15 ||| s
      = (2 ^ 25 * t ||| sh * 2 ^ 15) ||| s := by rw [Nat.mul_comm]
    _ = (2 ^ 25 * t + sh * 2 ^ 15) ||| s := by rw [← Nat.mul_add_lt_is_or hor1 t]
    _ = (2 ^ 15 * (2 ^ 10 * t + sh)) ||| s := by congr 1; ring
    _ = 2 ^ 15 * (2 ^ 10 * t + sh) + s := by
        rw [← Nat.mul_add_lt_is_or (by omega : s < 2 ^ 15) (2 ^ 10 * t + sh)]
    _ = t * 2 ^ 25 + sh * 2 ^ 15 + s := by ring

theorem pack_or_form (t sh s : Nat) (ht : t < 2 ^ 39) (hsh : sh < 1024)
    (hs : s < 32768) : pack (t : Int) sh s = t <<< 25 ||| sh <<< 15 ||| s := by
  rw [pack_natCast t sh s ht hsh hs, or_form_eq_add t sh s hsh hs]

theorem encode_take10 (u v : Nat) (h : u >>> 6 = v >>> 6) :
    (encodeVal u).data.take 10 = (encodeVal v).data.take 10 := by
  have key : ∀ w : Nat, ((digitsAux 11 w).map chrOf).take 10 =
      (digitsAux 10 (w >>> 6)).map chrOf := by
    intro w
    show ((digitsAux 10 (w >>> 6) ++ [w &&& 63]).map chrOf).take 10 = _
    rw [List.map_append]
    have hl : ((digitsAux 10 (w >>> 6)).map chrOf).length = 10 := by
      rw [List.length_map, digitsAux_length]
    rw [List.take_left' hl]
  show ((digitsAux 11 u).map chrOf).take 10 = ((digitsAux 11 v).map chrOf).take 10
  rw [key u, key v, h]

theorem encode_last (v : Nat) : (encodeVal v).data.getD 10 'A' = chrOf (v &&& 63) := by
  show ((digitsAux 10 (v >>> 6) ++ [v &&& 63]).map chrOf).getD 10 'A' = _
  rw [List.map_append]
  have hl : ((digitsAux 10 (v >>> 6)).map chrOf).length = 10 := by
    rw [List.length_map, digitsAux_length]
  rw [List.getD_append_right _ _ _ _ (le_of_eq hl)]
  rw [hl]
  rfl

/-! ### Claim theorems (second batch) -/

/-- C7: every string returned by `Next` is exactly 11 characters long and
every character is drawn from the fixed 64-symbol alphabet. -/
theorem c7_length_alphabet (g : GenState) (clock : Nat → Int) (i fuel : Nat)
    (g' : GenState) (s : String) (j : Nat)
    (h : nextStr g clock i fuel = some (g', s, j)) :
    s.length = 11 ∧ ∀ c ∈ s.data, c ∈ alphabet.data := by
  unfold nextStr at h
  cases hn : next g clock i fuel with
  | none => rw [hn] at h; exact Option.noConfusion h
  | some p =>
    rw [hn] at h
    have hs : s = encodeVal p.2.1 := by
      have := Option.some.inj h
      exact (congrArg (fun q => q.2.1) this).symm
    rw [hs]
    exact ⟨encodeVal_length _, encodeVal_mem_alphabet _⟩

theorem c7_length_alphabet_witness :
    (encodeVal (pack 5 1 0)).length = 11 ∧
    ∀ c ∈ (encodeVal (pack 5 1 0)).data, c ∈ alphabet.data :=
  c7_length_alphabet (freshGen 1 0) (fun _ => (5 : Int)) 0 1 ⟨5, 0, 1, 0⟩
    (encodeVal (pack 5 1 0)) 1 (by decide)

/-- C5: with shard 1, epoch 0 and the clock frozen at a (positive,
representable) tick `T`, two successive `next` calls produce the packed
values `(T <<< 25) ||| (1 <<< 15) ||| 0` and `(T <<< 25) ||| (1 <<< 15) ||| 1`,
and their 11-character encodings agree on the first ten characters while the
last characters' alphabet indices differ by exactly 1. -/
theorem c5_concrete_scenario (T : Nat) (fuel : Nat) (hT : 0 < T)
    (hT39 : T < 2 ^ 39) :
    next (freshGen 1 0) (fun _ => (T : Int)) 0 fuel =
      some (⟨(T : Int), 0, 1, 0⟩, T <<< 25 ||| 1 <<< 15 ||| 0, 1) ∧
    next ⟨(T : Int), 0, 1, 0⟩ (fun _ => (T : Int)) 1 fuel =
      some (⟨(T : Int), 1, 1, 0⟩, T <<< 25 ||| 1 <<< 15 ||| 1, 2) ∧
    (encodeVal (T <<< 25 ||| 1 <<< 15 ||| 0)).data.take 10 =
      (encodeVal (T <<< 25 ||| 1 <<< 15 ||| 1)).data.take 10 ∧
    alphaIdx ((encodeVal (T <<< 25 ||| 1 <<< 15 ||| 1)).data.getD 10 'A') =
      alphaIdx ((encodeVal (T <<< 25 ||| 1 <<< 15 ||| 0)).data.getD 10 'A') + 1 := by
  have hv0 : T <<< 25 ||| 1 <<< 15 ||| 0 = T * 2 ^ 25 + 1 * 2 ^ 15 + 0 :=
    or_form_eq_add T 1 0 (by norm_num) (by norm_num)
  have hv1 : T <<< 25 ||| 1 <<< 15 ||| 1 = T * 2 ^ 25 + 1 * 2 ^ 15 + 1 :=
    or_form_eq_add T 1 1 (by norm_num) (by norm_num)
  refine ⟨?_, ?_, ?_, ?_⟩
  · have hfg : freshGen 1 0 = ⟨0, 0, 1, 0⟩ := rfl
    rw [hfg]
    have hpos : (⟨0, 0, 1, 0⟩ : GenState).lastMs <
        (fun _ : Nat => (T : Int)) 0 - (⟨0, 0, 1, 0⟩ : GenState).baseEpoch := by
      show (0 : Int) < (T : Int) - 0
      simp
      exact_mod_cast hT
    rw [next_advance ⟨0, 0, 1, 0⟩ (fun _ => (T : Int)) 0 fuel hpos]
    have he : (T : Int) - (⟨0, 0, 1, 0⟩ : GenState).baseEpoch = (T : Int) := by
      show (T : Int) - 0 = (T : Int); ring
    simp only [he]
    rw [pack_or_form T 1 0 hT39 (by norm_num) (by norm_num)]
  · have hsame : (fun _ : Nat => (T : Int)) 1 - (⟨(T : Int), 0, 1, 0⟩ : GenState).baseEpoch ≤
        (⟨(T : Int), 0, 1, 0⟩ : GenState).lastMs := by
      show (T : Int) - 0 ≤ (T : Int); simp
    rw [next_same ⟨(T : Int), 0, 1, 0⟩ (fun _ => (T : Int)) 1 fuel hsame
      (by show (0 + 1) % 65536 < 32768; norm_num)]
    show some ((⟨(T : Int), (0 + 1) % 65536, 1, 0⟩ : GenState),
      pack (T : Int) 1 ((0 + 1) % 65536), 2) = _
    norm_num
    rw [pack_or_form T 1 1 hT39 (by norm_num) (by norm_num)]
  · apply encode_take10
    rw [hv0, hv1, shr6_eq_div, shr6_eq_div]
    omega
  · rw [encode_last, encode_last, hv0, hv1, and63_eq_mod, and63_eq_mod]
    have h0 : (T * 2 ^ 25 + 1 * 2 ^ 15 + 0) % 64 = 0 := by omega
    have h1 : (T * 2 ^ 25 + 1 * 2 ^ 15 + 1) % 64 = 1 := by omega
    rw [h0, h1, alphaIdx_chrOf 0 (by norm_num), alphaIdx_chrOf 1 (by norm_num)]

theorem c5_concrete_scenario_witness :
    next (freshGen 1 0) (fun _ => (7 : Int)) 0 0 =
      some (⟨(7 : Int), 0, 1, 0⟩, 7 <<< 25 ||| 1 <<< 15 ||| 0, 1) ∧
    next ⟨(7 : Int), 0, 1, 0⟩ (fun _ => (7 : Int)) 1 0 =
      some (⟨(7 : Int), 1, 1, 0⟩, 7 <<< 25 ||| 1 <<< 15 ||| 1, 2) ∧
    (encodeVal (7 <<< 25 ||| 1 <<< 15 ||| 0)).data.take 10 =
      (encodeVal (7 <<< 25 ||| 1 <<< 15 ||| 1)).data.take 10 ∧
    alphaIdx ((encodeVal (7 <<< 25 ||| 1 <<< 15 ||| 1)).data.getD 10 'A') =
      alphaIdx ((encodeVal (7 <<< 25 ||| 1 <<< 15 ||| 0)).data.getD 10 'A') + 1 := by
  have h := c5_concrete_scenario 7 0 (by decide) (by decide)
  have hcast : ((7 : Nat) : Int) = (7 : Int) := by norm_num
  rw [hcast] at h
  exact h

/-- C2: the 11-character rendering over the 64-symbol alphabet is a total,
order-preserving bijection on 64-bit values: `u < v` iff `encode u` is
lexicographically below `encode v` when characters are compared by alphabet
index, and encodings are equal iff the values are; consequently, identifiers
of one generator (same shard) whose (tick, sequence) pairs are
lexicographically increasing have strictly increasing encoded strings. -/
theorem c2_order_preserving_bijection (u v : Nat) (hu : u < 2 ^ 64)
    (hv : v < 2 ^ 64) (t1 s1 t2 s2 sh : Nat) (ht1 : t1 < 2 ^ 39)
    (ht2 : t2 < 2 ^ 39) (hs1 : s1 < 32768) (hs2 : s2 < 32768) (hsh : sh < 1024)
    (hlex : t1 < t2 ∨ (t1 = t2 ∧ s1 < s2)) :
    (u < v ↔ strLtAlpha (encodeVal u) (encodeVal v)) ∧
    (encodeVal u = encodeVal v ↔ u = v) ∧
    strLtAlpha (encodeVal (pack (t1 : Int) sh s1))
      (encodeVal (pack (t2 : Int) sh s2)) := by
  refine ⟨(strLt_iff u v hu hv).symm, encodeVal_inj_iff u v hu hv, ?_⟩
  have h1 := pack_natCast t1 sh s1 ht1 hsh hs1
  have h2 := pack_natCast t2 sh s2 ht2 hsh hs2
  have hlt1 := pack_lt t1 sh s1 ht1 hsh hs1
  have hlt2 := pack_lt t2 sh s2 ht2 hsh hs2
  rw [strLt_iff _ _ hlt1 hlt2, h1, h2]
  norm_num
  omega

theorem c2_order_preserving_bijection_witness :
    ((3 : Nat) < 5 ↔ strLtAlpha (encodeVal 3) (encodeVal 5)) ∧
    (encodeVal 3 = encodeVal 5 ↔ (3 : Nat) = 5) ∧
    strLtAlpha (encodeVal (pack ((2 : Nat) : Int) 1 7))
      (encodeVal (pack ((2 : Nat) : Int) 1 9)) :=
  c2_order_preserving_bijection 3 5 (by decide) (by decide) 2 7 2 9 1
    (by decide) (by decide) (by decide) (by decide) (by decide)
    (Or.inr ⟨rfl, by decide⟩)

/-- C3: from the state reached after 32768 identifiers were issued in tick
`T` (`lastMs = T`, `seq = 32767`), a further `Next` call whose first clock
reading is still within tick `T` spin-waits, consuming exactly the readings
`i+1 … i+n` that are still `≤ T` and stopping at reading `i+1+n`, the first
whose epoch-relative value strictly exceeds `T`; with a non-decreasing clock
the identifier it then issues has sequence field 0 and a tick field equal to
the post-spin re-read `clock (i+2+n) - E`, strictly greater than `T`. -/
theorem c3_sequence_rollover (sh : Nat) (T E : Int) (clock : Nat → Int)
    (i n : Nat) (hsh : sh < 1024) (hT : 0 ≤ T)
    (hmono : ∀ k, clock k ≤ clock (k + 1))
    (hsame : clock i - E ≤ T)
    (hspin : ∀ m, m < n → clock (i + 1 + m) - E ≤ T)
    (hhit : T + 1 ≤ clock (i + 1 + n) - E)
    (hbound : clock (i + 2 + n) - E < 2 ^ 39) :
    next ⟨T, 32767, sh, E⟩ clock i (n + 1) =
      some (⟨clock (i + 2 + n) - E, 0, sh, E⟩,
        pack (clock (i + 2 + n) - E) sh 0, i + 3 + n) ∧
    T < clock (i + 2 + n) - E ∧
    seqField (pack (clock (i + 2 + n) - E) sh 0) = 0 ∧
    (tickField (pack (clock (i + 2 + n) - E) sh 0) : Int) = clock (i + 2 + n) - E := by
  have hstepm : clock (i + 1 + n) ≤ clock (i + 2 + n) := by
    have h := hmono (i + 1 + n)
    have he : i + 1 + n + 1 = i + 2 + n := by omega
    rwa [he] at h
  have hpost : T + 1 ≤ clock (i + 2 + n) - E := by omega
  have hsp : spinGo E (T + 1) clock (i + 1) (n + 1) = some (i + 2 + n) := by
    have h := spinGo_first E (T + 1) clock n (i + 1) (n + 1) (Nat.lt_succ_self n)
      (fun m hm => by have := hspin m hm; omega) hhit
    rw [h]
    congr 1
    omega
  have hroll := next_roll ⟨T, 32767, sh, E⟩ clock i (n + 1) (i + 2 + n) hsame
    (by show 32768 ≤ (32767 + 1) % 65536; norm_num) hsp
  have hnn : 0 ≤ clock (i + 2 + n) - E := by omega
  have htn : clock (i + 2 + n) - E = ((clock (i + 2 + n) - E).toNat : Int) :=
    (Int.toNat_of_nonneg hnn).symm
  have htb : (clock (i + 2 + n) - E).toNat < 2 ^ 39 := by omega
  have hfields := fields_of_pack ((clock (i + 2 + n) - E).toNat) sh 0 htb hsh
    (by norm_num)
  rw [← htn] at hfields
  refine ⟨?_, by omega, hfields.2.2, ?_⟩
  · rw [hroll]
    have he : i + 2 + n + 1 = i + 3 + n := by omega
    rw [he]
  · rw [hfields.1]
    omega

theorem c3_sequence_rollover_witness :
    next ⟨10, 32767, 1, 0⟩ wClock 0 (0 + 1) =
      some (⟨wClock (0 + 2 + 0) - 0, 0, 1, 0⟩,
        pack (wClock (0 + 2 + 0) - 0) 1 0, 0 + 3 + 0) ∧
    (10 : Int) < wClock (0 + 2 + 0) - 0 ∧
    seqField (pack (wClock (0 + 2 + 0) - 0) 1 0) = 0 ∧
    (tickField (pack (wClock (0 + 2 + 0) - 0) 1 0) : Int) = wClock (0 + 2 + 0) - 0 :=
  c3_sequence_rollover 1 10 0 wClock 0 0 (by decide) (by decide)
    (fun k => by cases k with
      | zero => decide
      | succ m => simp [wClock])
    (by decide) (fun m hm => absurd hm (Nat.not_lt_zero m)) (by decide) (by decide)

theorem nextRun_chain (g g' : GenState) (clock : Nat → Int)
    (i i' fuel a b c : Nat) (hc : c = a + b)
    (ha : nextRun g clock i fuel a = some (g', i')) :
    nextRun g clock i fuel c = nextRun g' clock i' fuel b := by
  subst hc
  rw [nextRun_add, ha]
  rfl

/-- C1: the claimed invariant — strictly lexicographically increasing
(tick, sequence) pairs, a never-decreasing tick field, and pairwise-distinct
identifiers even under a backward clock — is violated by the code: on the
concrete clock stream `badClock` (shard 1, epoch 0), call 1 issues the
identifier `pack 10 1 0`; after call 32768 the state is `(tick 10,
seq 32767)`; call 32769 exhausts the sequence, spins, and then stores the
unguarded post-spin re-read, so its state drops to `(tick 5, seq 0)` — the
tick field decreases from 10 to 5 — and call 32770 then issues `pack 10 1 0`
again, an exact duplicate of call 1's identifier. -/
theorem c1_backward_clock_monotonicity_bug :
    next (freshGen 1 0) badClock 0 1 = some (⟨10, 0, 1, 0⟩, pack 10 1 0, 1) ∧
    nextRun (freshGen 1 0) badClock 0 1 32768 = some (⟨10, 32767, 1, 0⟩, 32768) ∧
    nextRun (freshGen 1 0) badClock 0 1 32769 = some (⟨5, 0, 1, 0⟩, 32771) ∧
    next ⟨5, 0, 1, 0⟩ badClock 32771 1 = some (⟨10, 0, 1, 0⟩, pack 10 1 0, 32772) ∧
    nextRun (freshGen 1 0) badClock 0 1 32770 = some (⟨10, 0, 1, 0⟩, 32772) := by
  have hrun1 : nextRun (freshGen 1 0) badClock 0 1 1 = some (⟨10, 0, 1, 0⟩, 1) := by
    decide
  have hfro := nextRun_frozen 10 0 1 badClock 1 32767 1 0 (by norm_num)
    (fun k hk => by
      show badClock (1 + k) - 0 ≤ 10
      simp only [badClock]
      rw [if_pos (by omega : 1 + k ≤ 32768)]
      norm_num)
  have h32768 : nextRun (freshGen 1 0) badClock 0 1 32768 =
      some (⟨10, 32767, 1, 0⟩, 32768) :=
    (nextRun_chain (freshGen 1 0) ⟨10, 0, 1, 0⟩ badClock 0 1 1 1 32767 32768
      (by norm_num) hrun1).trans hfro
  have hrun69 : nextRun (⟨10, 32767, 1, 0⟩ : GenState) badClock 32768 1 1 =
      some (⟨5, 0, 1, 0⟩, 32771) := by decide
  have h32769 : nextRun (freshGen 1 0) badClock 0 1 32769 =
      some (⟨5, 0, 1, 0⟩, 32771) :=
    (nextRun_chain (freshGen 1 0) ⟨10, 32767, 1, 0⟩ badClock 0 32768 1 32768 1
      32769 (by norm_num) h32768).trans hrun69
  have hrun70 : nextRun (⟨5, 0, 1, 0⟩ : GenState) badClock 32771 1 1 =
      some (⟨10, 0, 1, 0⟩, 32772) := by decide
  have h32770 : nextRun (freshGen 1 0) badClock 0 1 32770 =
      some (⟨10, 0, 1, 0⟩, 32772) :=
    (nextRun_chain (freshGen 1 0) ⟨5, 0, 1, 0⟩ badClock 0 32771 1 32769 1
      32770 (by norm_num) h32769).trans hrun70
  exact ⟨by decide, h32768, h32769, by decide, h32770⟩

end Uniqid
